import Mathlib

/-!
Verification of the BookForge core: chapter detection, chunk segmentation,
project index and rebuild/review orchestration, shallowly embedded from the
Python sources (bookforge/cli.py, process/chunker.py, process/chapter_detector.py,
ingest/txt_ingest.py, project.py).

Text is modelled as `List Char`; Python floats are modelled as exact rationals
together with an explicit IEEE-754 double rounding function, so that the
floating-point comparisons performed by the source are reproduced faithfully.
-/

namespace BookForge

/-! ## Python string primitives -/

/-- Python whitespace test for the characters that occur in plain text
(the ASCII part of the class used by str.strip, str.split and regex \s). -/
def isPySpace (c : Char) : Bool :=
  c = ' ' || c = '\t' || c = '\n' || c = '\r' || c = '\x0b' || c = '\x0c'

/-- Python text.split(sep) for the single-character separator newline:
greedy left-to-right scan, empty input gives one empty piece. -/
def splitNL : List Char → List (List Char)
  | [] => [[]]
  | '\n' :: rest => [] :: splitNL rest
  | c :: rest =>
    match splitNL rest with
    | [] => [[c]]
    | p :: ps => (c :: p) :: ps

/-- Python text.split on the two-character separator of two consecutive
newlines, greedy left-to-right, as used by the chunker's paragraph split. -/
def splitNN : List Char → List (List Char)
  | '\n' :: '\n' :: rest => [] :: splitNN rest
  | c :: rest =>
    match splitNN rest with
    | [] => [[c]]
    | p :: ps => (c :: p) :: ps
  | [] => [[]]

/-- Python str.strip(): drop whitespace from both ends. -/
def pyStrip (s : List Char) : List Char :=
  ((s.dropWhile isPySpace).reverse.dropWhile isPySpace).reverse

/-- Scan for counting whitespace-separated words; the flag records whether the
scan is currently inside a word. -/
def pyWordsGo : List Char → Bool → Nat
  | [], _ => 0
  | c :: rest, inWord =>
    if isPySpace c then pyWordsGo rest false
    else (if inWord then 0 else 1) + pyWordsGo rest true

/-- Python len(text.split()): number of maximal runs of non-whitespace. -/
def pyWords (s : List Char) : Nat := pyWordsGo s false

/-- Python "\n\n".join(pieces). -/
def joinNN : List (List Char) → List Char
  | [] => []
  | [p] => p
  | p :: q :: rest => p ++ '\n' :: '\n' :: joinNN (q :: rest)

/-- Python "\n".join(pieces). -/
def joinNL : List (List Char) → List Char
  | [] => []
  | [p] => p
  | p :: q :: rest => p ++ '\n' :: joinNL (q :: rest)

/-! ## IEEE-754 double model

The Python sources compute estimated durations and detection confidences with
binary64 floating point. We model a float as the exact rational it denotes and
model each arithmetic step by rounding the exact rational result to 53 bits of
precision, round-to-nearest ties-to-even (the magnitudes that occur are far
inside the normal range, so neither subnormals nor overflow arise). -/

/-- Two to an integer power, as a rational. -/
def pow2 (k : ℤ) : ℚ :=
  if 0 ≤ k then ((2 ^ k.toNat : ℕ) : ℚ) else mkRat 1 (2 ^ (-k).toNat)

/-- Exact rational division, via divInt (avoiding the field inverse). -/
def ratDiv (a b : ℚ) : ℚ := Rat.divInt (a.num * (b.den : ℤ)) (b.num * (a.den : ℤ))

/-- Exact rational multiplication, via divInt (the library multiplication on
the rational type is irreducible and would block kernel evaluation). -/
def ratMul (a b : ℚ) : ℚ := Rat.divInt (a.num * b.num) (((a.den * b.den : ℕ) : ℤ))

/-- Exact rational addition, via divInt. -/
def ratAdd (a b : ℚ) : ℚ :=
  Rat.divInt (a.num * (b.den : ℤ) + b.num * (a.den : ℤ)) ((a.den : ℤ) * (b.den : ℤ))

/-- Floor of a rational, via flooring integer division. -/
def ratFloor (q : ℚ) : ℤ := Int.fdiv q.num (q.den : ℤ)

/-- Round a rational to an integer, ties to even. -/
def roundHalfEven (q : ℚ) : ℤ :=
  let f := ratFloor q
  let r := Rat.divInt (q.num - f * (q.den : ℤ)) ((q.den : ℤ))
  if r < mkRat 1 2 then f
  else if mkRat 1 2 < r then f + 1
  else if f % 2 = 0 then f else f + 1

/-- Fuelled floor of the base-2 logarithm of a natural number; with fuel at
least n this is exact for every n of at least 1. -/
def natLog2F : ℕ → ℕ → ℕ
  | 0, _ => 0
  | fuel + 1, n => if n ≤ 1 then 0 else natLog2F fuel (n / 2) + 1

/-- Floor of the base-2 logarithm of a positive rational: the unique e with
2^e ≤ q < 2^(e+1) (junk on nonpositive input). -/
def ratLog2 (q : ℚ) : ℤ :=
  if 1 ≤ q then ((natLog2F (ratFloor q).toNat (ratFloor q).toNat : ℕ) : ℤ)
  else
    let m : ℕ := natLog2F (ratFloor (ratDiv 1 q)).toNat (ratFloor (ratDiv 1 q)).toNat
    if pow2 (-(m : ℤ)) ≤ q then -(m : ℤ) else -((m : ℤ) + 1)

/-- Round a nonnegative rational to the nearest binary64 value
(53-bit mantissa, round-to-nearest ties-to-even). -/
def fpRound (q : ℚ) : ℚ :=
  if q ≤ 0 then 0
  else
    let e := ratLog2 q
    ratMul ((roundHalfEven (ratMul q (pow2 ((52 : ℤ) - e))) : ℤ) : ℚ) (pow2 (e - (52 : ℤ)))

/-- IEEE double addition on exactly-represented operands. -/
def fpAdd (a b : ℚ) : ℚ := fpRound (ratAdd a b)

/-- IEEE double multiplication on exactly-represented operands. -/
def fpMul (a b : ℚ) : ℚ := fpRound (ratMul a b)

/-- IEEE double division on exactly-represented operands. -/
def fpDiv (a b : ℚ) : ℚ := fpRound (ratDiv a b)

/-! ## process/chunker.py -/

/-- The fields of the PresetConfig record that the chunker consumes
(config.py; target_chunk_secs is an int, default 30). -/
structure PresetConfig where
  target_chunk_secs : ℕ
deriving DecidableEq, Repr

/-- chunker.Chunk: the chunk metadata dataclass (process/chunker.py lines 14-20).
Its only attributes are the five dataclass fields below. -/
structure Chunk where
  id : ℕ
  chapter_index : ℕ
  relative_index : ℕ
  text : List Char
  estimated_seconds : ℚ
deriving DecidableEq, Repr

/-- WORDS_PER_MINUTE = 160.0 (process/chunker.py line 11). -/
def WORDS_PER_MINUTE : ℚ := 160

/-- chunker._estimate_seconds: word count / 160.0 * 60.0 in double precision,
0.0 for an empty word list (process/chunker.py lines 23-28). -/
def estimateSeconds (s : List Char) : ℚ :=
  let words := pyWords s
  if words = 0 then 0
  else fpMul (fpDiv (fpRound (words : ℚ)) WORDS_PER_MINUTE) 60

/-- Paragraph extraction of chunk_chapter (process/chunker.py line 44):
split on double newlines, strip each piece, keep the nonempty ones. -/
def paragraphsOf (chapterText : List Char) : List (List Char) :=
  ((splitNN chapterText).map pyStrip).filter (fun p => ¬p = [])

/-- Build the Chunk record that chunk_chapter's flush emits
(process/chunker.py lines 52-69). -/
def mkChunk (chapterIndex cid rel : ℕ) (paras : List (List Char)) : Chunk :=
  { id := cid
    chapter_index := chapterIndex
    relative_index := rel
    text := joinNN paras
    estimated_seconds := estimateSeconds (joinNN paras) }

/-- The paragraph loop of chunk_chapter with the closure-captured mutable
state (current_paras, current_chunk_id, rel_idx) made explicit
(process/chunker.py lines 52-79, including the final unconditional flush). -/
def chunkLoop (target : ℚ) (chapterIndex : ℕ) :
    List (List Char) → List (List Char) → ℕ → ℕ → List Chunk
  | [], cur, cid, rel => if cur = [] then [] else [mkChunk chapterIndex cid rel cur]
  | p :: ps, cur, cid, rel =>
    let candidate := if cur = [] then p else joinNN (cur ++ [p])
    if estimateSeconds candidate > target ∧ ¬cur = [] then
      mkChunk chapterIndex cid rel cur :: chunkLoop target chapterIndex ps [p] (cid + 1) (rel + 1)
    else
      chunkLoop target chapterIndex ps (cur ++ [p]) cid rel

/-- chunker.chunk_chapter (process/chunker.py lines 31-80). -/
def chunkChapter (chapterText : List Char) (config : PresetConfig)
    (chapterIndex startingChunkId : ℕ) : List Chunk :=
  chunkLoop (fpRound (config.target_chunk_secs : ℚ)) chapterIndex
    (paragraphsOf chapterText) [] startingChunkId 0

/-! ## Specification-side chunker (written from the spec's description of the
greedy packer, for the refinement claim): an explicit fold over paragraphs
carrying (buffer, emitted chunks, next id, next relative index). -/

/-- Accumulator state of the spec's description of the chunk segmenter. -/
structure SpecPackState where
  buffer : List (List Char)
  emitted : List Chunk
  nextId : ℕ
  nextRel : ℕ
deriving Repr

/-- Spec: flush the buffer as a completed chunk (assign next id, next relative
index); flushing an empty buffer does nothing. -/
def specFlush (chapterIndex : ℕ) (st : SpecPackState) : SpecPackState :=
  if st.buffer = [] then st
  else
    { buffer := []
      emitted := st.emitted ++ [mkChunk chapterIndex st.nextId st.nextRel st.buffer]
      nextId := st.nextId + 1
      nextRel := st.nextRel + 1 }

/-- Spec: for each paragraph, if the estimated duration of buffer-plus-paragraph
exceeds the target and the buffer is non-empty, flush first and start a new
buffer containing only that paragraph; otherwise append it to the buffer. -/
def specStep (target : ℚ) (chapterIndex : ℕ) (st : SpecPackState) (p : List Char) : SpecPackState :=
  if estimateSeconds (joinNN (st.buffer ++ [p])) > target ∧ ¬st.buffer = [] then
    { specFlush chapterIndex st with buffer := [p] }
  else { st with buffer := st.buffer ++ [p] }

/-- Spec-side chunk segmenter: fold the packing step over the trimmed non-empty
paragraphs, then flush any remaining buffer unconditionally. -/
def specChunkChapter (chapterText : List Char) (target : ℚ)
    (chapterIndex startingChunkId : ℕ) : List Chunk :=
  (specFlush chapterIndex
    ((paragraphsOf chapterText).foldl (specStep target chapterIndex)
      ⟨[], [], startingChunkId, 0⟩)).emitted

/-! ## The per-chapter id threading of the process command (cli.py lines 162-173):
chunk_id starts at 0; chapters that produce no chunks are skipped; otherwise the
next chapter starts at the last emitted id plus one. -/

/-- The chapter loop of cli.process, threading (chapter_index, chunk_id). -/
def processThread (config : PresetConfig) : List (List Char) → ℕ → ℕ → List Chunk
  | [], _, _ => []
  | t :: ts, ci, cid =>
    let cs := chunkChapter t config ci cid
    match cs.getLast? with
    | none => processThread config ts (ci + 1) cid
    | some c => cs ++ processThread config ts (ci + 1) (c.id + 1)

/-- All chunks the process command derives from the (cleaned) chapter texts. -/
def processChunks (chapters : List (List Char)) (config : PresetConfig) : List Chunk :=
  processThread config chapters 0 0

/-! ## process/chapter_detector.py -/

/-- chapter_detector.ChapterBoundary. -/
structure ChapterBoundary where
  line_index : ℕ
  title : Option (List Char)
  confidence : ℚ
  strategy : String
deriving DecidableEq, Repr

/-- The binary64 value of the Python literal 0.05. -/
def d005 : ℚ := fpRound (mkRat 1 20)
/-- The binary64 value of the Python literal 0.1. -/
def d01 : ℚ := fpRound (mkRat 1 10)
/-- The binary64 value of the Python literal 0.15. -/
def d015 : ℚ := fpRound (mkRat 3 20)
/-- The binary64 value of the Python literal 0.2. -/
def d02 : ℚ := fpRound (mkRat 1 5)
/-- The binary64 value of the Python literal 0.3. -/
def d03 : ℚ := fpRound (mkRat 3 10)
/-- The binary64 value of the Python literal 0.4. -/
def d04 : ℚ := fpRound (mkRat 2 5)
/-- The binary64 value of the Python literal 0.5. -/
def d05 : ℚ := fpRound (mkRat 1 2)
/-- The binary64 value of the Python literal 0.6. -/
def d06 : ℚ := fpRound (mkRat 3 5)
/-- The binary64 value of the Python literal 0.7. -/
def d07 : ℚ := fpRound (mkRat 7 10)
/-- The binary64 value of the Python literal 0.8. -/
def d08 : ℚ := fpRound (mkRat 4 5)
/-- The binary64 value of the Python literal 0.85. -/
def d085 : ℚ := fpRound (mkRat 17 20)
/-- The binary64 value of the Python literal 0.9. -/
def d09 : ℚ := fpRound (mkRat 9 10)
/-- The binary64 value of the Python literal 0.95. -/
def d095 : ℚ := fpRound (mkRat 19 20)
/-- The binary64 value of the Python literal 1.1. -/
def d11 : ℚ := fpRound (mkRat 11 10)

/-- Python min of two floats (first argument on ties). -/
def pyMin (a b : ℚ) : ℚ := if a ≤ b then a else b

/-- lines[i], with the out-of-range default never reached by the callers
(every caller indexes inside the enumerated line list). -/
def lineAt (lines : List (List Char)) (i : ℕ) : List Char := lines.getD i []

/-- ChapterDetector._has_blank_context (chapter_detector.py lines 248-264). -/
def hasBlankContext (lines : List (List Char)) (index window : ℕ) : Bool :=
  let beforeBlank := (List.range' (index - window) (index - (index - window))).all
    (fun j => !(decide (j < lines.length)) || decide (pyStrip (lineAt lines j) = []))
  let afterBlank := (List.range' (index + 1) (min lines.length (index + window + 1) - (index + 1))).all
    (fun j => decide (pyStrip (lineAt lines j) = []))
  beforeBlank && afterBlank

/-- ChapterDetector._after_long_gap (chapter_detector.py lines 266-279). -/
def afterLongGap (lines : List (List Char)) (index minBlank : ℕ) : Bool :=
  if index < minBlank then false
  else (List.range' (index - minBlank) minBlank).all
    (fun j => decide (pyStrip (lineAt lines j) = []))

/-- ChapterDetector._is_centered (chapter_detector.py lines 281-290). -/
def isCentered (lines : List (List Char)) (index : ℕ) : Bool :=
  let line := lineAt lines index
  match line.head? with
  | none => false
  | some c =>
    if c = ' ' ∨ c = '\t' then
      decide (4 < line.length - (line.dropWhile isPySpace).length)
        && decide ((pyStrip line).length < 60)
    else false

/-- Whether a stripped line matches the markdown header regex of one or two
leading hashes followed by whitespace and at least one further character
(chapter_detector.py line 116). -/
def mdMatch (ls : List Char) : Bool :=
  let r := (ls.takeWhile (fun c => c = '#')).length
  decide (1 ≤ r) && decide (r ≤ 2) &&
    (match ls.drop r with
     | c :: _ :: _ => isPySpace c
     | _ => false)

/-- Markdown header title: text after the marker, stripped of hashes and
whitespace (chapter_detector.py line 118). -/
def mdTitle (ls : List Char) : List Char := pyStrip (ls.dropWhile (fun c => c = '#'))

/-- One line of ChapterDetector._detect_markdown (lines 113-125): confidence
1.0 for a single hash, 0.9 for a double hash. -/
def mdEval (lines : List (List Char)) (i : ℕ) : Option ChapterBoundary :=
  let ls := pyStrip (lineAt lines i)
  if mdMatch ls then
    some ⟨i, some (mdTitle ls),
      if (ls.takeWhile (fun c => c = '#')).length = 1 then 1 else d09, "markdown"⟩
  else none

/-- ChapterDetector._detect_markdown (chapter_detector.py lines 108-127):
note that, unlike structured and heuristic, it does NOT pass its candidates
through _filter_overlapping. -/
def detectMarkdown (text : List Char) : List ChapterBoundary :=
  let lines := splitNL text
  (List.range lines.length).filterMap (mdEval lines)

/-- The greedy keep-if-at-least-10-lines-past step of _filter_overlapping
(chapter_detector.py lines 311-313). -/
def filterGo (last : ChapterBoundary) : List ChapterBoundary → List ChapterBoundary
  | [] => []
  | b :: rest =>
    if last.line_index + 10 ≤ b.line_index then b :: filterGo b rest
    else filterGo last rest

/-- ChapterDetector._filter_overlapping with its default min_distance = 10
(chapter_detector.py lines 298-315): sort by line index, keep the first, then
greedily keep boundaries at least 10 lines past the last kept one. -/
def filterOverlapping (bs : List ChapterBoundary) : List ChapterBoundary :=
  match List.insertionSort (fun a b => a.line_index ≤ b.line_index) bs with
  | [] => []
  | b :: rest => b :: filterGo b rest

/-! ### A small regular-expression engine for the STRUCTURED_PATTERNS.

Every quantifier in those patterns applies to a single character class, so a
regex here is built from literals, character classes with a bounded or
unbounded repetition count, sequencing and alternation. Matching is applied to
the lowercased line since the source compiles every pattern with IGNORECASE. -/

/-- Regex syntax: empty, literal, character class with {lo, hi} repetition
(hi = none meaning unbounded), sequence, alternation. -/
inductive RE where
  | eps : RE
  | lit : List Char → RE
  | cls : (Char → Bool) → ℕ → Option ℕ → RE
  | seq : RE → RE → RE
  | alt : RE → RE → RE

/-- All suffixes left over after matching a prefix of s against r. -/
def reSuffixes : RE → List Char → List (List Char)
  | .eps, s => [s]
  | .lit l, s => if l.isPrefixOf s then [s.drop l.length] else []
  | .cls p lo hi, s =>
    let maxRun := (s.takeWhile p).length
    let hiv := match hi with | none => maxRun | some h => min h maxRun
    if lo ≤ hiv then (List.range' lo (hiv - lo + 1)).map (s.drop ·) else []
  | .seq a b, s => ((reSuffixes a s).map (reSuffixes b)).flatten
  | .alt a b, s => reSuffixes a s ++ reSuffixes b s

/-- re.match against a pattern anchored at both ends (all structured patterns
end in a dollar anchor): some way of matching consumes the whole line. -/
def reMatch (r : RE) (s : List Char) : Bool := (reSuffixes r s).any (·.isEmpty)

/-- Lowercase ASCII letter (a letter class under IGNORECASE, after lowering). -/
def isLowerAZ (c : Char) : Bool := 'a' ≤ c && c ≤ 'z'
/-- Roman-numeral letter class [IVX] under IGNORECASE, after lowering. -/
def isIVX (c : Char) : Bool := c = 'i' || c = 'v' || c = 'x'
/-- The regex dot: any character except a newline. -/
def anyNoNL (c : Char) : Bool := !(decide (c = '\n'))
/-- The punctuation class of the optional chapter/part title tail. -/
def isColonDashDot (c : Char) : Bool := c = ':' || c = '-' || c = '.'

/-- Sequence a list of regexes. -/
def reSeqs (rs : List RE) : RE := rs.foldr .seq .eps

/-- The optional title tail shared by the chapter and part patterns. -/
def reTail : RE :=
  .alt (reSeqs [.cls isPySpace 0 none, .cls isColonDashDot 0 (some 1),
    .cls isPySpace 0 none, .cls anyNoNL 0 (some 50)]) .eps

/-- Pattern for chapter markers, e.g. a chapter keyword, whitespace, a roman
numeral or number or word, and an optional short tail. -/
def reChapterNum : RE :=
  reSeqs [.lit ("chapter".data), .cls isPySpace 1 none,
    .alt (.cls isIVX 1 none) (.alt (.cls Char.isDigit 1 none) (.cls isLowerAZ 1 none)),
    reTail]

/-- Pattern for numbered sections: numeral, dot, whitespace, then a title of
letters and whitespace. -/
def reNumberedSection : RE :=
  reSeqs [.alt (.cls isIVX 1 none) (.cls Char.isDigit 1 none), .lit (".".data),
    .cls isPySpace 1 none, .cls isLowerAZ 1 (some 1),
    .cls (fun c => isLowerAZ c || isPySpace c) 1 none]

/-- Pattern for standalone numbers or roman numerals. -/
def reStandaloneNum : RE :=
  reSeqs [.cls isPySpace 0 none,
    .alt (.cls isIVX 1 none) (.cls Char.isDigit 1 none),
    .cls isPySpace 0 none]

/-- Pattern for part markers. -/
def rePartMarker : RE :=
  reSeqs [.lit ("part".data), .cls isPySpace 1 none,
    .alt (.cls isIVX 1 none) (.cls isLowerAZ 1 none), reTail]

/-- Pattern for the special-section keywords. -/
def reSpecial : RE :=
  reSeqs [.alt (.lit ("prologue".data)) (.alt (.lit ("epilogue".data))
      (.alt (.lit ("preface".data)) (.alt (.lit ("introduction".data))
        (.alt (.lit ("conclusion".data)) (.lit ("afterword".data)))))),
    .cls isPySpace 0 none]

/-- Pattern for short all-caps titles (case-insensitive in the source, since
every pattern is compiled with IGNORECASE). -/
def reCapsTitle : RE :=
  reSeqs [.cls isLowerAZ 1 (some 1),
    .cls (fun c => isLowerAZ c || isPySpace c) 3 (some 30)]

/-- One entry of ChapterDetector.STRUCTURED_PATTERNS. -/
structure SPattern where
  re : RE
  conf : ℚ
  tag : String

/-- ChapterDetector.STRUCTURED_PATTERNS (chapter_detector.py lines 23-44),
in source order; because every pattern is matched with IGNORECASE the
upper/lower variants of a rule coincide after lowering. -/
def STRUCTURED_PATTERNS : List SPattern :=
  [⟨reChapterNum, d095, "chapter_number"⟩,
   ⟨reChapterNum, d095, "chapter_number"⟩,
   ⟨reNumberedSection, d085, "numbered_section"⟩,
   ⟨reStandaloneNum, d07, "standalone_number"⟩,
   ⟨rePartMarker, d09, "part_marker"⟩,
   ⟨rePartMarker, d09, "part_marker"⟩,
   ⟨reSpecial, d085, "special_section"⟩,
   ⟨reSpecial, d085, "special_section"⟩,
   ⟨reCapsTitle, d06, "caps_title"⟩]

/-- First pattern whose regex matches the lowercased stripped line, with its
base confidence and tag (the for-loop with break of lines 143-163). -/
def structMatchBase (lsLower : List Char) : Option (ℚ × String) :=
  (STRUCTURED_PATTERNS.find? (fun p => reMatch p.re lsLower)).map (fun p => (p.conf, p.tag))

/-- The two clamped confidence boosts of _detect_structured (lines 148-154):
plus 0.1 for blank context, plus 0.05 near the start of the document or after
a long gap, each clamped to 1.0. -/
def structBoosts (lines : List (List Char)) (i : ℕ) (base : ℚ) : ℚ :=
  let c1 := if hasBlankContext lines i 1 then pyMin 1 (fpAdd base d01) else base
  if i < 5 ∨ afterLongGap lines i 3 then pyMin 1 (fpAdd c1 d005) else c1

/-- One line of ChapterDetector._detect_structured (lines 138-163): base
confidence, the two clamped boosts, and the min-confidence guard. -/
def structEval (lines : List (List Char)) (i : ℕ) (minConf : ℚ) : Option ChapterBoundary :=
  let ls := pyStrip (lineAt lines i)
  if ls = [] then none
  else
    match structMatchBase (ls.map Char.toLower) with
    | none => none
    | some (base, tag) =>
      if minConf ≤ structBoosts lines i base then
        some ⟨i, some ls, structBoosts lines i base, "structured:" ++ tag⟩
      else none

/-- ChapterDetector._detect_structured (chapter_detector.py lines 129-165). -/
def detectStructured (text : List Char) (minConf : ℚ) : List ChapterBoundary :=
  let lines := splitNL text
  filterOverlapping ((List.range lines.length).filterMap (fun i => structEval lines i minConf))

/-- ChapterDetector.CHAPTER_KEYWORDS (chapter_detector.py lines 47-51). -/
def CHAPTER_KEYWORDS : List (List Char) :=
  [("chapter".data), ("part".data), ("section".data), ("book".data),
   ("prologue".data), ("epilogue".data), ("introduction".data),
   ("preface".data), ("afterword".data), ("interlude".data)]

/-- Python substring containment (needle in haystack): some suffix of the
haystack starts with the needle. -/
def containsSub (needle : List Char) : List Char → Bool
  | [] => needle.isEmpty
  | c :: rest => needle.isPrefixOf (c :: rest) || containsSub needle rest

/-- Case-insensitive keyword containment test of heuristic feature 2. -/
def containsKw (lineLower : List Char) : Bool :=
  CHAPTER_KEYWORDS.any (fun kw => containsSub kw lineLower)

/-- The scene-break markers of heuristic feature 5. -/
def sceneBreakMarkers : List (List Char) :=
  [("***".data), ("---".data), ("* * *".data), ("…".data)]

/-- The additive score of _detect_heuristic as a function of its seven
feature flags, accumulated in source order with double-precision addition
(chapter_detector.py lines 183-212). -/
def heurScore (f1 f2 f3 f4 f5 f6 f7 : Bool) : ℚ :=
  let s : ℚ := 0
  let s := if f1 then fpAdd s d02 else s
  let s := if f2 then fpAdd s d03 else s
  let s := if f3 then fpAdd s d02 else s
  let s := if f4 then fpAdd s d01 else s
  let s := if f5 then fpAdd s d02 else s
  let s := if f6 then fpAdd s d015 else s
  let s := if f7 then fpAdd s d015 else s
  s

/-- One line of ChapterDetector._detect_heuristic (lines 176-220): skip blank
or over-long lines, evaluate the seven features, keep if the score reaches the
minimum confidence (the stored confidence is clamped to 1.0, the compared
score is not). -/
def heurEval (lines : List (List Char)) (i : ℕ) (minConf : ℚ) : Option ChapterBoundary :=
  let ls := pyStrip (lineAt lines i)
  if ls = [] ∨ 100 < ls.length then none
  else
    let f1 := (match ls.head? with | some c => c.isUpper | none => false)
      && decide (5 ≤ ls.length) && decide (ls.length ≤ 50)
    let f2 := containsKw (ls.map Char.toLower)
    let f3 := hasBlankContext lines i 2
    let f4 := decide (i + 1 < lines.length)
      && (("    ".data).isPrefixOf (lineAt lines (i + 1))
          || ("\t".data).isPrefixOf (lineAt lines (i + 1)))
    let f5 := decide (0 < i) && decide (pyStrip (lineAt lines (i - 1)) ∈ sceneBreakMarkers)
    let f6 := isCentered lines i
    let f7 := afterLongGap lines i 3
    let score := heurScore f1 f2 f3 f4 f5 f6 f7
    if minConf ≤ score then some ⟨i, some ls, pyMin 1 score, "heuristic"⟩ else none

/-- ChapterDetector._detect_heuristic (chapter_detector.py lines 167-222). -/
def detectHeuristic (text : List Char) (minConf : ℚ) : List ChapterBoundary :=
  let lines := splitNL text
  filterOverlapping ((List.range lines.length).filterMap (fun i => heurEval lines i minConf))

/-- The scan of ChapterDetector._detect_paragraph_breaks, carrying the current
line index and the length of the blank-line run just passed. -/
def paraGo : List (List Char) → ℕ → ℕ → List ChapterBoundary
  | [], _, _ => []
  | l :: rest, i, run =>
    if pyStrip l = [] then paraGo rest (i + 1) (run + 1)
    else (if 5 ≤ run then [⟨i, none, d04, "paragraph_break"⟩] else []) ++ paraGo rest (i + 1) 0

/-- ChapterDetector._detect_paragraph_breaks (chapter_detector.py lines 224-244). -/
def detectParagraphBreaks (text : List Char) : List ChapterBoundary :=
  paraGo (splitNL text) 0 0

/-- ChapterDetector._avg_confidence (lines 292-296): float sum divided by the
count, 0.0 on the empty list. -/
def avgConfidence (bs : List ChapterBoundary) : ℚ :=
  if bs = [] then 0
  else fpDiv (bs.foldl (fun a b => fpAdd a b.confidence) 0) (fpRound (bs.length : ℚ))

/-- ChapterDetector._detect_auto (chapter_detector.py lines 87-106). The
caller's min_confidence is received but the cascade uses the fixed internal
thresholds 0.7 and 0.5. -/
def detectAuto (text : List Char) (_minConf : ℚ) : List ChapterBoundary :=
  let md := detectMarkdown text
  if ¬md = [] ∧ d08 < avgConfidence md then md
  else
    let st := detectStructured text d07
    if ¬st = [] ∧ 3 ≤ st.length then st
    else
      let hu := detectHeuristic text d05
      if ¬hu = [] ∧ 3 ≤ hu.length then hu
      else detectParagraphBreaks text

/-- ChapterDetector.detect (chapter_detector.py lines 53-85); an unknown
strategy name raises ValueError, modelled as none. -/
def detect (text : List Char) (strategy : String) (minConf : ℚ) :
    Option (List ChapterBoundary) :=
  if strategy = "none" then some []
  else if strategy = "auto" then some (detectAuto text minConf)
  else if strategy = "markdown" then some (detectMarkdown text)
  else if strategy = "structured" then some (detectStructured text minConf)
  else if strategy = "heuristic" then some (detectHeuristic text minConf)
  else if strategy = "paragraph" then some (detectParagraphBreaks text)
  else none

/-! ## ingest/txt_ingest.py -/

/-- The chapter texts load_txt derives from the raw text (txt_ingest.py lines
37-72): detect boundaries, fall back to a single whole-text chapter when none
are found, otherwise cut the line sequence at the boundary line indexes. -/
def loadChapters (text : List Char) (strategy : String) (minConf : ℚ) :
    Option (List (List Char)) :=
  (detect text strategy minConf).map (fun bs =>
    if bs = [] then [text]
    else
      let lines := splitNL text
      let ends := bs.tail.map (·.line_index) ++ [lines.length]
      List.zipWith
        (fun (b : ChapterBoundary) (e : ℕ) =>
          joinNL ((lines.drop b.line_index).take (e - b.line_index)))
        bs ends)

/-- The detection strategy the review command's load_txt call uses: review
passes no strategy argument (cli.py line 271), so the signature default of
txt_ingest.load_txt applies, regardless of the stored project metadata. -/
def reviewLoadStrategy : String := "auto"

/-- The minimum confidence the review command's load_txt call uses: the
signature default 0.5, regardless of the stored project metadata. -/
def reviewLoadMinConfidence : ℚ := fpRound (mkRat 1 2)

/-! ## cli._rebuild_audio_from_index (cli.py lines 22-65) -/

/-- One record of the persisted project index as the rebuild code reads it:
int(m["id"]), int(m["chapter_index"]) and str(m["file"]). -/
structure IndexEntry where
  id : ℕ
  chapter_index : ℕ
  file : List Char
deriving DecidableEq, Repr

/-- sorted(index, key=lambda m: int(m["id"])) (cli.py line 34). -/
def sortById (idx : List IndexEntry) : List IndexEntry :=
  List.insertionSort (fun a b => a.id ≤ b.id) idx

/-- The entries whose audio file exists on disk, after dropping the first
skip_first_chunks entries of the id-sorted index (cli.py lines 34-46); disk is
the set of chunk file names present, as a list. -/
def rebuildSurvivors (idx : List IndexEntry) (skip : ℕ) (disk : List (List Char)) :
    List IndexEntry :=
  ((sortById idx).drop skip).filter (fun m => m.file ∈ disk)

/-- Python string comparison, used by sorted() on the per-chapter path lists. -/
def strLe : List Char → List Char → Bool
  | [], _ => true
  | _ :: _, [] => false
  | a :: as, b :: bs =>
    if a.val < b.val then true else if b.val < a.val then false else strLe as bs

/-- sorted(chunks_by_chapter.keys()) (cli.py line 49): the distinct chapter
indexes of the surviving entries, ascending. -/
def chapterKeysOf (surv : List IndexEntry) : List ℕ :=
  List.insertionSort (· ≤ ·) (surv.map (·.chapter_index)).dedup

/-- sorted(chunks_by_chapter[chapter_idx]) (cli.py line 50): the surviving
files of one chapter are sorted by file name, not kept in index order. -/
def chapterFilesOf (surv : List IndexEntry) (k : ℕ) : List (List Char) :=
  List.insertionSort (fun a b => strLe a b = true)
    ((surv.filter (fun m => m.chapter_index = k)).map (·.file))

/-- The observable outcome of _rebuild_audio_from_index: the early empty-index
message, the no-chapter-WAVs message, or the per-chapter concatenation lists
(in chapter order) that are then stitched into the book. -/
inductive RebuildOutcome where
  | emptyIndex : RebuildOutcome
  | noChapters : RebuildOutcome
  | built : List (ℕ × List (List Char)) → RebuildOutcome
deriving DecidableEq, Repr

/-- cli._rebuild_audio_from_index (cli.py lines 22-65) as a pure function of
the index, skip_first_chunks and the set of files on disk. -/
def rebuildFromIndex (idx : List IndexEntry) (skip : ℕ) (disk : List (List Char)) :
    RebuildOutcome :=
  if idx = [] then .emptyIndex
  else
    let surv := rebuildSurvivors idx skip disk
    let groups := (chapterKeysOf surv).map (fun k => (k, chapterFilesOf surv k))
    if groups = [] then .noChapters else .built groups

/-- Whether the outcome is a nothing-to-rebuild report rather than built audio. -/
def isNothingOutcome : RebuildOutcome → Bool
  | .built _ => false
  | _ => true

/-! ## The saved index record of the process command (cli.py line 182) -/

/-- The attributes the Chunk dataclass defines (process/chunker.py lines 14-20):
exactly its five fields. -/
def chunkFieldNames : List String :=
  ["id", "chapter_index", "relative_index", "text", "estimated_seconds"]

/-- The methods the Chunk class body defines: none. -/
def chunkMethodNames : List String := []

/-- Python attribute lookup on a Chunk instance. -/
def pyChunkHasAttr (name : String) : Bool :=
  chunkFieldNames.contains name || chunkMethodNames.contains name

/-- The attribute the process command invokes on each chunk to build the saved
index record: chunk.to_dict() (cli.py line 182). -/
def processRecordMethod : String := "to_dict"

/-- The record key _rebuild_audio_from_index reads to locate a chunk's audio
file: m["file"] (cli.py line 42). -/
def rebuildFileKey : String := "file"

/-! ## Concrete inputs used by witnesses and counterexamples -/

/-- A paragraph of n single-letter words separated by single spaces. -/
def repWords : ℕ → List Char
  | 0 => []
  | 1 => ['w']
  | n + 2 => 'w' :: ' ' :: repWords (n + 1)

/-- A 50-word paragraph. -/
def para50 : List Char := repWords 50

/-- A chapter of three 50-word paragraphs separated by blank lines. -/
def threeParas : List Char :=
  para50 ++ '\n' :: '\n' :: para50 ++ '\n' :: '\n' :: para50

/-- Two adjacent markdown headers. -/
def mdTwoAdjacent : List Char := ("# A\n# B".data)

/-- A source document with two markdown chapters. -/
def reviewSourceDoc : List Char := ("# One\nalpha\n# Two\nbeta".data)

/-! # Theorems -/

/-! ## The chunker implements the spec's greedy packer (C4) -/

/-- The mutable-state paragraph loop of chunk_chapter agrees with the spec's
explicit fold, for any buffer, emitted prefix and counters. -/
theorem chunkLoop_eq_specPack (target : ℚ) (ci : ℕ) :
    ∀ (ps cur : List (List Char)) (E : List Chunk) (cid rel : ℕ),
      (specFlush ci (ps.foldl (specStep target ci) ⟨cur, E, cid, rel⟩)).emitted
        = E ++ chunkLoop target ci ps cur cid rel
  | [], cur, E, cid, rel => by
      by_cases h : cur = [] <;> simp [specFlush, chunkLoop, h]
  | p :: ps, cur, E, cid, rel => by
      by_cases hcur : cur = []
      · subst hcur
        have h1 : specStep target ci ⟨[], E, cid, rel⟩ p = ⟨[p], E, cid, rel⟩ := by
          simp [specStep]
        rw [List.foldl_cons, h1, chunkLoop_eq_specPack target ci ps [p] E cid rel]
        simp [chunkLoop]
      · by_cases hc : estimateSeconds (joinNN (cur ++ [p])) > target
        · have h1 : specStep target ci ⟨cur, E, cid, rel⟩ p
              = ⟨[p], E ++ [mkChunk ci cid rel cur], cid + 1, rel + 1⟩ := by
            simp [specStep, specFlush, hc, hcur]
          rw [List.foldl_cons, h1,
            chunkLoop_eq_specPack target ci ps [p] _ (cid + 1) (rel + 1)]
          simp [chunkLoop, hc, hcur]
        · have h1 : specStep target ci ⟨cur, E, cid, rel⟩ p = ⟨cur ++ [p], E, cid, rel⟩ := by
            simp [specStep, hc]
          rw [List.foldl_cons, h1,
            chunkLoop_eq_specPack target ci ps (cur ++ [p]) E cid rel]
          simp [chunkLoop, hc, hcur]

/-- Claim C4: for every chapter text, target, chapter index and starting id,
chunk_chapter splits the text into trimmed non-empty paragraphs on blank-line
separators and packs them greedily exactly as the spec describes: a paragraph
is appended to the buffer unless the estimate of buffer-plus-paragraph exceeds
the target while the buffer is non-empty, in which case the buffer is flushed
first and a fresh buffer holds just that paragraph; the final buffer is flushed
unconditionally, and an over-length single paragraph becomes its own chunk
(the flush emits the whole buffer, never splitting a paragraph). -/
theorem c4_chunker_refines_spec (chapterText : List Char) (config : PresetConfig)
    (chapterIndex startingChunkId : ℕ) :
    chunkChapter chapterText config chapterIndex startingChunkId
      = specChunkChapter chapterText (fpRound (config.target_chunk_secs : ℚ))
          chapterIndex startingChunkId := by
  unfold chunkChapter specChunkChapter
  rw [chunkLoop_eq_specPack]
  simp

/-! ## Chunk ids and relative indexes (C5) -/

/-- The ids emitted by the chunk loop are contiguous from the running id. -/
theorem chunkLoop_map_id (target : ℚ) (ci : ℕ) :
    ∀ (ps cur : List (List Char)) (cid rel : ℕ),
      (chunkLoop target ci ps cur cid rel).map (·.id)
        = List.range' cid (chunkLoop target ci ps cur cid rel).length
  | [], cur, cid, rel => by
      by_cases h : cur = [] <;> simp [chunkLoop, h, mkChunk, List.range']
  | p :: ps, cur, cid, rel => by
      by_cases hcond :
          estimateSeconds (if cur = [] then p else joinNN (cur ++ [p])) > target ∧ ¬cur = []
      · rw [chunkLoop, if_pos hcond]
        simp [chunkLoop_map_id target ci ps [p] (cid + 1) (rel + 1), mkChunk,
          List.range'_succ]
      · rw [chunkLoop, if_neg hcond]
        exact chunkLoop_map_id target ci ps (cur ++ [p]) cid rel

/-- The relative indexes emitted by the chunk loop are contiguous from the
running relative index. -/
theorem chunkLoop_map_rel (target : ℚ) (ci : ℕ) :
    ∀ (ps cur : List (List Char)) (cid rel : ℕ),
      (chunkLoop target ci ps cur cid rel).map (·.relative_index)
        = List.range' rel (chunkLoop target ci ps cur cid rel).length
  | [], cur, cid, rel => by
      by_cases h : cur = [] <;> simp [chunkLoop, h, mkChunk, List.range']
  | p :: ps, cur, cid, rel => by
      by_cases hcond :
          estimateSeconds (if cur = [] then p else joinNN (cur ++ [p])) > target ∧ ¬cur = []
      · rw [chunkLoop, if_pos hcond]
        simp [chunkLoop_map_rel target ci ps [p] (cid + 1) (rel + 1), mkChunk,
          List.range'_succ]
      · rw [chunkLoop, if_neg hcond]
        exact chunkLoop_map_rel target ci ps (cur ++ [p]) cid rel

/-- The last element of a nonempty arithmetic range. -/
theorem range'_getLast? : ∀ (n s : ℕ), (List.range' s (n + 1)).getLast? = some (s + n)
  | 0, s => rfl
  | n + 1, s => by
      rw [List.range'_succ, List.range'_succ, List.getLast?_cons_cons,
        ← List.range'_succ, range'_getLast? n (s + 1)]
      congr 1
      omega

/-- Concatenation of adjacent arithmetic ranges. -/
theorem range'_append_own : ∀ (m s n : ℕ),
    List.range' s m ++ List.range' (s + m) n = List.range' s (m + n)
  | 0, s, n => by simp
  | m + 1, s, n => by
      have h1 : m + 1 + n = (m + n) + 1 := by omega
      have h2 : s + (m + 1) = (s + 1) + m := by omega
      rw [h1, List.range'_succ, h2, List.range'_succ, List.cons_append,
        range'_append_own m (s + 1) n]

/-- The ids of one chunked chapter are contiguous from the starting id. -/
theorem chunkChapter_map_id (text : List Char) (config : PresetConfig) (ci sid : ℕ) :
    (chunkChapter text config ci sid).map (·.id)
      = List.range' sid (chunkChapter text config ci sid).length :=
  chunkLoop_map_id _ ci (paragraphsOf text) [] sid 0

/-- The ids across the whole process loop are contiguous from the running id. -/
theorem processThread_map_id (config : PresetConfig) :
    ∀ (ts : List (List Char)) (ci cid : ℕ),
      (processThread config ts ci cid).map (·.id)
        = List.range' cid (processThread config ts ci cid).length
  | [], _, _ => rfl
  | t :: ts, ci, cid => by
      simp only [processThread]
      cases h : (chunkChapter t config ci cid).getLast? with
      | none => exact processThread_map_id config ts (ci + 1) cid
      | some c =>
        have hne : chunkChapter t config ci cid ≠ [] := by
          intro hnil
          rw [hnil] at h
          exact Option.noConfusion h
        obtain ⟨n, hn⟩ : ∃ n, (chunkChapter t config ci cid).length = n + 1 :=
          ⟨(chunkChapter t config ci cid).length - 1, by
            have := List.length_pos.mpr hne
            omega⟩
        have hid : c.id = cid + n := by
          have h1 : ((chunkChapter t config ci cid).map (·.id)).getLast? = some c.id := by
            rw [List.getLast?_map, h]
            rfl
          rw [chunkChapter_map_id, hn, range'_getLast? n cid] at h1
          exact (Option.some.injEq _ _).mp h1.symm
        rw [List.map_append, chunkChapter_map_id,
          processThread_map_id config ts (ci + 1) (c.id + 1), List.length_append, hn]
        rw [hid]
        have : cid + n + 1 = cid + (n + 1) := by omega
        rw [this, range'_append_own]

/-- Claim C5: within one chapter the emitted chunk ids are contiguous and
strictly increasing from the given starting id and the relative indexes are
0, 1, 2, ... without gaps; threading each chapter's last id plus one into the
next chapter's starting id (as the process loop does, starting from 0) makes
the ids strictly increasing and globally unique across the whole document. -/
theorem c5_chunk_ids_contiguous :
    (∀ (text : List Char) (config : PresetConfig) (ci sid : ℕ),
      (chunkChapter text config ci sid).map (·.id)
          = List.range' sid (chunkChapter text config ci sid).length
        ∧ (chunkChapter text config ci sid).map (·.relative_index)
          = List.range (chunkChapter text config ci sid).length)
    ∧ ∀ (chapters : List (List Char)) (config : PresetConfig),
        (processChunks chapters config).map (·.id)
            = List.range' 0 (processChunks chapters config).length
          ∧ ((processChunks chapters config).map (·.id)).Pairwise (· < ·) := by
  constructor
  · intro text config ci sid
    refine ⟨chunkChapter_map_id text config ci sid, ?_⟩
    rw [List.range_eq_range']
    exact chunkLoop_map_rel _ ci (paragraphsOf text) [] sid 0
  · intro chapters config
    refine ⟨processThread_map_id config chapters 0 0, ?_⟩
    show ((processThread config chapters 0 0).map (·.id)).Pairwise (· < ·)
    rw [processThread_map_id config chapters 0 0]
    exact List.pairwise_lt_range' _ _

/-! ## The three-50-word-paragraph scenario (C6) -/

/-- Claim C6 counterexample: on a chapter of three 50-word paragraphs with a
30-second target the chunker does not produce two chunks (two 50-word
paragraphs already estimate to 37.5 seconds, over the target). -/
theorem c6_counterexample :
    decide ((chunkChapter threeParas ⟨30⟩ 0 0).length = 2) = false := by decide

/-- Claim C6 (amended): on a chapter of three 50-word paragraphs with
target_chunk_secs = 30 the chunker produces exactly three chunks, each holding
one paragraph, since already two 50-word paragraphs estimate to 37.5 seconds
and so exceed the target. -/
theorem c6_three_single_paragraph_chunks :
    chunkChapter threeParas ⟨30⟩ 0 0 =
      [⟨0, 0, 0, para50, mkRat 75 4⟩, ⟨1, 0, 1, para50, mkRat 75 4⟩, ⟨2, 0, 2, para50, mkRat 75 4⟩] := by
  decide

/-! ## The chunk texts partition the paragraph list (C10) -/

/-- The double-newline split never returns an empty piece list. -/
theorem splitNN_ne_nil (s : List Char) : splitNN s ≠ [] := by
  induction s using splitNN.induct with
  | case1 rest ih => simp [splitNN]
  | case2 c rest hno hnil =>
    rw [splitNN.eq_def]
    split
    · simp
    · split <;> simp
    · simp
  | case3 c rest hno p ps hps ih =>
    rw [splitNN.eq_def]
    split
    · simp
    · split <;> simp
    · simp
  | case4 => simp [splitNN]

/-- The cons equation of splitNN when the input does not start with the
two-newline separator. -/
theorem splitNN_eq_cons (c : Char) (r : List Char) (h : ¬(c = '\n' ∧ r.head? = some '\n')) :
    splitNN (c :: r) = match splitNN r with
      | [] => [[c]]
      | p :: ps => (c :: p) :: ps := by
  rw [splitNN.eq_def]
  split
  · next x rest heq =>
    rw [List.cons.injEq] at heq
    exact absurd ⟨heq.1, by rw [heq.2]; rfl⟩ h
  · next x c' rest hno heq =>
    rw [List.cons.injEq] at heq
    rw [heq.1, heq.2]
  · next x heq => exact absurd heq (List.cons_ne_nil c r)

/-- The first piece of a double-newline split starts with the first character
of the input whenever it starts at all. -/
theorem splitNN_head_head (r : List Char) (hd : List Char) (tl : List (List Char))
    (hsp : splitNN r = hd :: tl) (ch : Char) (hh : hd.head? = some ch) :
    r.head? = some ch := by
  cases r with
  | nil =>
    rw [splitNN] at hsp
    rw [List.cons.injEq] at hsp
    rw [← hsp.1] at hh
    exact absurd hh (by simp)
  | cons d u =>
    by_cases hdu : d = '\n' ∧ u.head? = some '\n'
    · obtain ⟨hd1, hu⟩ := hdu
      obtain ⟨u', hu'⟩ : ∃ u', u = '\n' :: u' := by
        cases u with
        | nil => exact absurd hu (by simp)
        | cons a b => exact ⟨b, by simpa using hu⟩
      subst hd1; subst hu'
      rw [splitNN] at hsp
      rw [List.cons.injEq] at hsp
      rw [← hsp.1] at hh
      exact absurd hh (by simp)
    · rw [splitNN_eq_cons d u hdu] at hsp
      cases hu : splitNN u with
      | nil => exact absurd hu (splitNN_ne_nil u)
      | cons p ps =>
        rw [hu] at hsp
        rw [List.cons.injEq] at hsp
        rw [← hsp.1] at hh
        simpa using hh

/-- No piece of the double-newline split contains the separator. -/
theorem splitNN_sep_free (s : List Char) :
    ∀ p ∈ splitNN s, ¬ ['\n', '\n'] <:+: p := by
  induction s using splitNN.induct with
  | case1 rest ih =>
    intro p hp
    rw [splitNN] at hp
    rcases List.mem_cons.mp hp with h | h
    · subst h
      intro hinf
      simpa using hinf.length_le
    · exact ih p h
  | case2 c rest hno hnil => exact absurd hnil (splitNN_ne_nil rest)
  | case3 c rest hno p ps hps ih =>
    intro q hq
    have hcr : ¬(c = '\n' ∧ rest.head? = some '\n') := by
      rintro ⟨hc, hh⟩
      obtain ⟨rest', hr⟩ : ∃ rest', rest = '\n' :: rest' := by
        cases rest with
        | nil => exact absurd hh (by simp)
        | cons a b => exact ⟨b, by simpa using hh⟩
      exact hno rest' hc hr
    rw [splitNN_eq_cons c rest hcr, hps] at hq
    rcases List.mem_cons.mp hq with h | h
    · subst h
      intro hinf
      rcases List.infix_cons_iff.mp hinf with hpre | hinf'
      · rw [List.cons_prefix_cons] at hpre
        obtain ⟨hc, hpre'⟩ := hpre
        have hh : p.head? = some '\n' := by
          cases p with
          | nil => simpa using hpre'.length_le
          | cons a b =>
            rw [List.cons_prefix_cons] at hpre'
            rw [List.head?_cons, ← hpre'.1]
        exact hcr ⟨hc.symm, splitNN_head_head rest p ps hps '\n' hh⟩
      · exact ih p (hps ▸ List.mem_cons_self p ps) hinf'
    · exact ih q (by rw [hps]; exact List.mem_cons.mpr (Or.inr h))
  | case4 =>
    intro p hp
    rw [splitNN] at hp
    rcases List.mem_cons.mp hp with h | h
    · subst h
      intro hinf
      simpa using hinf.length_le
    · simp at h

/-- Splitting a separator-free text gives just that text. -/
theorem splitNN_single (p : List Char) (h : ¬ ['\n', '\n'] <:+: p) : splitNN p = [p] := by
  induction p with
  | nil => rfl
  | cons c p' ih =>
    have hcp : ¬(c = '\n' ∧ p'.head? = some '\n') := by
      rintro ⟨hc, hh⟩
      obtain ⟨t, ht⟩ : ∃ t, p' = '\n' :: t := by
        cases p' with
        | nil => exact absurd hh (by simp)
        | cons a b => exact ⟨b, by simpa using hh⟩
      exact h (by rw [hc, ht]; exact List.IsPrefix.isInfix ⟨t, rfl⟩)
    have hp' : ¬ ['\n', '\n'] <:+: p' := fun hinf => h (List.infix_cons_iff.mpr (Or.inr hinf))
    rw [splitNN_eq_cons c p' hcp, ih hp']

/-- Splitting a good piece glued by a separator onto a remainder peels off
exactly that piece. -/
theorem splitNN_append_nn (p t : List Char) (hnn : ¬ ['\n', '\n'] <:+: p)
    (hlast : p.getLast? ≠ some '\n') :
    splitNN (p ++ '\n' :: '\n' :: t) = p :: splitNN t := by
  induction p with
  | nil => rfl
  | cons c p' ih =>
    have hstep : ¬(c = '\n' ∧ (p' ++ '\n' :: '\n' :: t).head? = some '\n') := by
      rintro ⟨hc, hh⟩
      cases p' with
      | nil => exact hlast (by simp [hc])
      | cons d p'' =>
        have hd : d = '\n' := by simpa using hh
        exact hnn (by rw [hc, hd]; exact List.IsPrefix.isInfix ⟨p'', rfl⟩)
    have hnn' : ¬ ['\n', '\n'] <:+: p' := fun hinf => hnn (List.infix_cons_iff.mpr (Or.inr hinf))
    have hlast' : p'.getLast? ≠ some '\n' := by
      cases p' with
      | nil => simp
      | cons d p'' => rw [← List.getLast?_cons_cons (a := c)]; exact hlast
    rw [List.cons_append, splitNN_eq_cons c _ hstep, ih hnn' hlast']

/-- Splitting the double-newline join of good pieces recovers the pieces. -/
theorem splitNN_joinNN : ∀ (ps : List (List Char)), ps ≠ [] →
    (∀ p ∈ ps, ¬ ['\n', '\n'] <:+: p ∧ p.getLast? ≠ some '\n') →
    splitNN (joinNN ps) = ps
  | [], hne, _ => absurd rfl hne
  | [p], _, hall => by
    rw [joinNN, splitNN_single p (hall p (List.mem_singleton_self p)).1]
  | p :: q :: rest, _, hall => by
    rw [joinNN, splitNN_append_nn p _ (hall p (List.mem_cons_self p _)).1
        (hall p (List.mem_cons_self p _)).2,
      splitNN_joinNN (q :: rest) (List.cons_ne_nil q rest)
        (fun r hr => hall r (List.mem_cons.mpr (Or.inr hr)))]

/-- The head of a dropWhile result fails the predicate. -/
theorem head?_dropWhile_not (q : α → Bool) :
    ∀ (l : List α) (c : α), (l.dropWhile q).head? = some c → q c = false
  | [], c => by simp
  | a :: l, c => by
    rw [List.dropWhile_cons]
    split
    · exact head?_dropWhile_not q l c
    · next h =>
      intro hc
      rw [List.head?_cons, Option.some.injEq] at hc
      subst hc
      exact Bool.of_not_eq_true h

/-- A stripped string is an infix of the original. -/
theorem pyStrip_part_of (s : List Char) : pyStrip s <:+: s := by
  unfold pyStrip
  have h1 : (s.dropWhile isPySpace) <:+ s := List.dropWhile_suffix isPySpace
  have h2 : ((s.dropWhile isPySpace).reverse.dropWhile isPySpace) <:+
      (s.dropWhile isPySpace).reverse := List.dropWhile_suffix isPySpace
  obtain ⟨w, hw⟩ := h2
  have hpre : ((s.dropWhile isPySpace).reverse.dropWhile isPySpace).reverse <+:
      (s.dropWhile isPySpace) := by
    refine ⟨w.reverse, ?_⟩
    have := congrArg List.reverse hw
    rwa [List.reverse_append, List.reverse_reverse] at this
  exact hpre.isInfix.trans h1.isInfix

/-- A nonempty stripped string does not end in whitespace, in particular not
in a newline. -/
theorem pyStrip_getLast_not_nl (s : List Char) : (pyStrip s).getLast? ≠ some '\n' := by
  unfold pyStrip
  rw [List.getLast?_reverse]
  intro hh
  have := head?_dropWhile_not isPySpace (s.dropWhile isPySpace).reverse '\n' hh
  simp [isPySpace] at this

/-- Every extracted paragraph is nonempty, separator-free and does not end in
a newline. -/
theorem paragraphsOf_good (text : List Char) :
    ∀ p ∈ paragraphsOf text,
      ¬p = [] ∧ ¬ ['\n', '\n'] <:+: p ∧ p.getLast? ≠ some '\n' := by
  intro p hp
  unfold paragraphsOf at hp
  rw [List.mem_filter] at hp
  obtain ⟨hmem, hne⟩ := hp
  rw [List.mem_map] at hmem
  obtain ⟨piece, hpiece, hstrip⟩ := hmem
  refine ⟨by simpa using hne, ?_, hstrip ▸ pyStrip_getLast_not_nl piece⟩
  intro hinf
  exact splitNN_sep_free text piece hpiece ((hstrip ▸ hinf).trans (pyStrip_part_of piece))

/-- Re-splitting the emitted chunk texts recovers exactly the pending
paragraphs: buffer paragraphs first, then the unprocessed ones. -/
theorem chunkLoop_flatten (target : ℚ) (ci : ℕ) :
    ∀ (ps cur : List (List Char)) (cid rel : ℕ),
      (∀ p ∈ ps, ¬p = [] ∧ ¬ ['\n', '\n'] <:+: p ∧ p.getLast? ≠ some '\n') →
      (∀ p ∈ cur, ¬p = [] ∧ ¬ ['\n', '\n'] <:+: p ∧ p.getLast? ≠ some '\n') →
      ((chunkLoop target ci ps cur cid rel).map (fun c => splitNN c.text)).flatten
          = cur ++ ps
        ∧ ∀ c ∈ chunkLoop target ci ps cur cid rel, ¬ splitNN c.text = []
  | [], cur, cid, rel => by
    intro _ hcur
    by_cases h : cur = []
    · subst h
      simp [chunkLoop]
    · rw [chunkLoop, if_neg h]
      have hsplit : splitNN (joinNN cur) = cur :=
        splitNN_joinNN cur h (fun p hp => (hcur p hp).2)
      constructor
      · simp [mkChunk, hsplit]
      · intro c hc
        rw [List.mem_singleton] at hc
        subst hc
        rw [mkChunk, hsplit]
        exact h
  | p :: ps, cur, cid, rel => by
    intro hps hcur
    have hp : ¬p = [] ∧ ¬ ['\n', '\n'] <:+: p ∧ p.getLast? ≠ some '\n' :=
      hps p (List.mem_cons_self p ps)
    have hps' : ∀ q ∈ ps, ¬q = [] ∧ ¬ ['\n', '\n'] <:+: q ∧ q.getLast? ≠ some '\n' :=
      fun q hq => hps q (List.mem_cons.mpr (Or.inr hq))
    by_cases hcond :
        estimateSeconds (if cur = [] then p else joinNN (cur ++ [p])) > target ∧ ¬cur = []
    · rw [chunkLoop, if_pos hcond]
      have hsplit : splitNN (joinNN cur) = cur :=
        splitNN_joinNN cur hcond.2 (fun q hq => (hcur q hq).2)
      obtain ⟨ih1, ih2⟩ := chunkLoop_flatten target ci ps [p] (cid + 1) (rel + 1) hps'
        (fun q hq => by rw [List.mem_singleton] at hq; exact hq ▸ hp)
      constructor
      · simp only [List.map_cons, List.flatten_cons, mkChunk, hsplit, ih1]
        simp
      · intro c hc
        rcases List.mem_cons.mp hc with h | h
        · subst h
          rw [mkChunk, hsplit]
          exact hcond.2
        · exact ih2 c h
    · rw [chunkLoop, if_neg hcond]
      obtain ⟨ih1, ih2⟩ := chunkLoop_flatten target ci ps (cur ++ [p]) cid rel hps'
        (fun q hq => by
          rcases List.mem_append.mp hq with h | h
          · exact hcur q h
          · rw [List.mem_singleton] at h; exact h ▸ hp)
      exact ⟨by rw [ih1, List.append_assoc]; rfl, ih2⟩

/-- Claim C10: the chunk texts, re-split on the blank-line separator, form a
partition of the chapter's trimmed non-empty paragraphs in order: nothing is
dropped, duplicated, split across chunks or reordered; each chunk re-splits to
a nonempty paragraph group, and a chapter with no non-blank paragraph yields
an empty chunk list. -/
theorem c10_chunks_partition_paragraphs (chapterText : List Char) (config : PresetConfig)
    (chapterIndex startingChunkId : ℕ) :
    ((chunkChapter chapterText config chapterIndex startingChunkId).map
        (fun c => splitNN c.text)).flatten = paragraphsOf chapterText
      ∧ (∀ c ∈ chunkChapter chapterText config chapterIndex startingChunkId,
          ¬ splitNN c.text = [])
      ∧ (paragraphsOf chapterText = [] →
          chunkChapter chapterText config chapterIndex startingChunkId = []) := by
  obtain ⟨h1, h2⟩ := chunkLoop_flatten (fpRound (config.target_chunk_secs : ℚ)) chapterIndex
    (paragraphsOf chapterText) [] startingChunkId 0 (paragraphsOf_good chapterText)
    (by intro p hp; simp at hp)
  refine ⟨by simpa using h1, h2, fun hempty => ?_⟩
  unfold chunkChapter
  rw [hempty]
  simp [chunkLoop]

/-- Witness for C10 at concrete inputs: a blank chapter yields no chunks, and
a two-paragraph chapter re-splits to exactly its paragraph list. -/
theorem c10_witness :
    chunkChapter ("   \n\n  ".data) ⟨30⟩ 0 0 = []
      ∧ ((chunkChapter ("a\n\nb".data) ⟨30⟩ 0 0).map
          (fun c => splitNN c.text)).flatten = paragraphsOf ("a\n\nb".data) :=
  ⟨(c10_chunks_partition_paragraphs ("   \n\n  ".data) ⟨30⟩ 0 0).2.2 (by decide),
   (c10_chunks_partition_paragraphs ("a\n\nb".data) ⟨30⟩ 0 0).1⟩

/-! ## The overlap filter separates boundaries by at least 10 lines (C7) -/

/-- Every boundary the greedy filter keeps is at least 10 lines past the
running last kept boundary, and the kept boundaries are pairwise separated. -/
theorem filterGo_gap : ∀ (l : List ChapterBoundary) (last : ChapterBoundary),
    (∀ b ∈ filterGo last l, last.line_index + 10 ≤ b.line_index)
      ∧ List.Pairwise (fun a b => a.line_index + 10 ≤ b.line_index) (filterGo last l)
  | [], last => ⟨by simp [filterGo], by simp [filterGo]⟩
  | b :: rest, last => by
    by_cases h : last.line_index + 10 ≤ b.line_index
    · rw [filterGo, if_pos h]
      obtain ⟨ih1, ih2⟩ := filterGo_gap rest b
      constructor
      · intro c hc
        rcases List.mem_cons.mp hc with hc | hc
        · rw [hc]; exact h
        · have := ih1 c hc; omega
      · exact List.Pairwise.cons ih1 ih2
    · rw [filterGo, if_neg h]
      exact filterGo_gap rest last

/-- The overlap filter output is pairwise separated by at least 10 lines. -/
theorem filterOverlapping_gap (bs : List ChapterBoundary) :
    List.Pairwise (fun a b => a.line_index + 10 ≤ b.line_index) (filterOverlapping bs) := by
  unfold filterOverlapping
  cases h : List.insertionSort (fun a b => a.line_index ≤ b.line_index) bs with
  | nil => simp
  | cons b rest =>
    obtain ⟨h1, h2⟩ := filterGo_gap rest b
    exact List.Pairwise.cons h1 h2

/-- Claim C7 (amended): the structured and heuristic strategies route their
candidates through the overlap filter, so any two boundaries they return are
at least 10 lines apart; the markdown strategy does not (see the
counterexample), contrary to the claim. -/
theorem c7_overlap_filtered_strategies (text : List Char) (minConf : ℚ) :
    List.Pairwise (fun a b => a.line_index + 10 ≤ b.line_index)
        (detectStructured text minConf)
      ∧ List.Pairwise (fun a b => a.line_index + 10 ≤ b.line_index)
        (detectHeuristic text minConf) :=
  ⟨filterOverlapping_gap _, filterOverlapping_gap _⟩

/-- Claim C7 counterexample: the markdown strategy returns two boundaries on
adjacent lines, so its output is not routed through the overlap filter. -/
theorem c7_counterexample :
    detect mdTwoAdjacent ("markdown") d05
        = some [⟨0, some ("A".data), 1, "markdown"⟩, ⟨1, some ("B".data), 1, "markdown"⟩]
      ∧ decide (List.Pairwise (fun a b => a.line_index + 10 ≤ b.line_index)
          [(⟨0, some ("A".data), 1, "markdown"⟩ : ChapterBoundary),
           ⟨1, some ("B".data), 1, "markdown"⟩]) = false := by
  exact ⟨by decide, by decide⟩

/-! ## Threshold saturation at min_confidence 1.1 (C8) -/

/-- Clamping to 1.0 never exceeds 1.0. -/
theorem pyMin_one_le (x : ℚ) : pyMin 1 x ≤ 1 := by
  unfold pyMin
  split
  · exact le_refl 1
  · next h => exact le_of_not_le h

/-- Every structured pattern's base confidence is at most 1.0. -/
theorem structured_bases_le_one :
    STRUCTURED_PATTERNS.all (fun p => decide (p.conf ≤ 1)) = true := by rfl

/-- The zeta-reduced form of the boost computation. -/
theorem structBoosts_eq (lines : List (List Char)) (i : ℕ) (base : ℚ) :
    structBoosts lines i base =
      if i < 5 ∨ afterLongGap lines i 3 = true then
        pyMin 1 (fpAdd
          (if hasBlankContext lines i 1 = true then pyMin 1 (fpAdd base d01) else base) d005)
      else if hasBlankContext lines i 1 = true then pyMin 1 (fpAdd base d01) else base := rfl

/-- The boosted structured confidence never exceeds 1.0. -/
theorem structBoosts_le_one (lines : List (List Char)) (i : ℕ) (base : ℚ)
    (h : base ≤ 1) : structBoosts lines i base ≤ 1 := by
  rw [structBoosts_eq]
  split_ifs <;> first | exact pyMin_one_le _ | exact h

/-- A structured line evaluation never reaches a threshold above 1.0. -/
theorem structEval_none_of_one_lt (lines : List (List Char)) (i : ℕ) (minConf : ℚ)
    (hmc : 1 < minConf) : structEval lines i minConf = none := by
  simp only [structEval]
  split
  · rfl
  · cases hm : structMatchBase ((pyStrip (lineAt lines i)).map Char.toLower) with
    | none => rfl
    | some pr =>
      obtain ⟨base, tag⟩ := pr
      have hbase : base ≤ 1 := by
        unfold structMatchBase at hm
        rw [Option.map_eq_some'] at hm
        obtain ⟨p, hfind, hp⟩ := hm
        have hmem := List.mem_of_find?_eq_some hfind
        have := List.all_eq_true.mp structured_bases_le_one p hmem
        have hple := of_decide_eq_true this
        have : base = p.conf := by
          have := congrArg Prod.fst hp
          simpa using this.symm
        rw [this]
        exact hple
      exact if_neg (fun hle =>
        absurd (le_trans hle (structBoosts_le_one lines i base hbase)) (not_le.mpr hmc))

/-- The heuristic score, under the structural constraint that a scene-break
predecessor line excludes both blank-context and long-gap features, always
falls short of the binary64 value of 1.1 (the six compatible features reach
only the double below 1.1). -/
theorem heurScore_lt_d11 : ∀ f1 f2 f3 f4 f5 f6 f7 : Bool,
    (f5 = true → f3 = false ∧ f7 = false) →
    heurScore f1 f2 f3 f4 f5 f6 f7 < d11 := by decide

/-- None of the scene-break markers is blank. -/
theorem sceneBreakMarkers_ne_nil : ∀ m ∈ sceneBreakMarkers, m ≠ [] := by decide

/-- A scene-break predecessor line is non-blank, hence line i has neither
blank context of window 2 nor a 3-blank-line gap before it. -/
theorem scene_break_conflicts (lines : List (List Char)) (i : ℕ)
    (h : (decide (0 < i)
        && decide (pyStrip (lineAt lines (i - 1)) ∈ sceneBreakMarkers)) = true) :
    hasBlankContext lines i 2 = false ∧ afterLongGap lines i 3 = false := by
  rw [Bool.and_eq_true, decide_eq_true_eq, decide_eq_true_eq] at h
  obtain ⟨hi, hmem⟩ := h
  have hne : pyStrip (lineAt lines (i - 1)) ≠ [] :=
    sceneBreakMarkers_ne_nil _ hmem
  have hlen : i - 1 < lines.length := by
    by_contra hge
    rw [not_lt] at hge
    apply hne
    unfold lineAt
    rw [List.getD_eq_default _ _ hge]
    rfl
  constructor
  · unfold hasBlankContext
    rw [Bool.and_eq_false_iff]
    left
    rw [List.all_eq_false]
    refine ⟨i - 1, ?_, ?_⟩
    · rw [List.mem_range']
      exact ⟨i - 1 - (i - 2), by omega, by omega⟩
    · intro habs
      rw [Bool.or_eq_true] at habs
      rcases habs with habs | habs
      · rw [Bool.not_eq_true', decide_eq_false_iff_not] at habs
        exact habs hlen
      · rw [decide_eq_true_eq] at habs
        exact hne habs
  · unfold afterLongGap
    split
    · rfl
    · next hge =>
      rw [List.all_eq_false]
      refine ⟨i - 1, ?_, ?_⟩
      · rw [List.mem_range']
        exact ⟨i - 1 - (i - 3), by omega, by omega⟩
      · intro habs
        rw [decide_eq_true_eq] at habs
        exact hne habs

/-- A heuristic line evaluation never reaches the threshold 1.1. -/
theorem heurEval_none_d11 (lines : List (List Char)) (i : ℕ) :
    heurEval lines i d11 = none := by
  simp only [heurEval]
  split
  · rfl
  · rw [if_neg (not_le.mpr (heurScore_lt_d11 _ _ _ _ _ _ _
      (fun h5 => scene_break_conflicts lines i h5)))]

/-- Claim C8: for every input text, detect with min_confidence 1.1 returns no
boundaries from the structured strategy and none from the heuristic strategy
(every structured confidence is clamped to at most 1.0, and the heuristic
feature score cannot reach the binary64 value of 1.1). -/
theorem c8_threshold_saturation (text : List Char) :
    detect text ("structured") d11 = some []
      ∧ detect text ("heuristic") d11 = some [] := by
  constructor
  · show detect text ("structured") d11 = some []
    unfold detect
    rw [if_neg (by decide), if_neg (by decide), if_neg (by decide), if_pos rfl]
    show some (filterOverlapping (List.filterMap
      (fun i => structEval (splitNL text) i d11) (List.range (splitNL text).length))) = some []
    rw [List.filterMap_eq_nil_iff.mpr
      (fun i _ => structEval_none_of_one_lt (splitNL text) i d11 (by decide))]
    rfl
  · show detect text ("heuristic") d11 = some []
    unfold detect
    rw [if_neg (by decide), if_neg (by decide), if_neg (by decide), if_neg (by decide),
      if_pos rfl]
    show some (filterOverlapping (List.filterMap
      (fun i => heurEval (splitNL text) i d11) (List.range (splitNL text).length))) = some []
    rw [List.filterMap_eq_nil_iff.mpr (fun i _ => heurEval_none_d11 (splitNL text) i)]
    rfl

/-! ## Every detect strategy returns strictly ascending boundaries (C9) -/

/-- filterMap over a strictly increasing index list, where the function tags
each produced boundary with its index, yields strictly ascending boundaries. -/
theorem pairwise_lt_filterMap (f : ℕ → Option ChapterBoundary)
    (hf : ∀ i b, f i = some b → b.line_index = i) :
    ∀ (l : List ℕ), l.Pairwise (· < ·) →
      List.Pairwise (fun a b => a.line_index < b.line_index) (l.filterMap f)
  | [], _ => by simp
  | a :: l, hl => by
    rw [List.filterMap_cons]
    have hl' := List.Pairwise.of_cons hl
    have ha : ∀ i ∈ l, a < i := fun i hi => List.rel_of_pairwise_cons hl hi
    cases hfa : f a with
    | none => exact pairwise_lt_filterMap f hf l hl'
    | some b =>
      refine List.Pairwise.cons ?_ (pairwise_lt_filterMap f hf l hl')
      intro c hc
      rw [List.mem_filterMap] at hc
      obtain ⟨i, hi, hfi⟩ := hc
      rw [hf a b hfa, hf i c hfi]
      exact ha i hi

/-- The markdown detector emits boundaries tagged with their line index. -/
theorem mdEval_line_index (lines : List (List Char)) (i : ℕ) (b : ChapterBoundary)
    (h : mdEval lines i = some b) : b.line_index = i := by
  simp only [mdEval] at h
  split at h
  · rw [Option.some.injEq] at h
    rw [← h]
  · exact Option.noConfusion h

/-- The markdown strategy output is strictly ascending in line index. -/
theorem detectMarkdown_ascending (text : List Char) :
    List.Pairwise (fun a b => a.line_index < b.line_index) (detectMarkdown text) := by
  unfold detectMarkdown
  exact pairwise_lt_filterMap _ (mdEval_line_index _) _
    (List.sorted_lt_range _)

/-- Gap-separated boundaries are in particular strictly ascending. -/
theorem pairwise_gap_lt (bs : List ChapterBoundary)
    (h : List.Pairwise (fun a b => a.line_index + 10 ≤ b.line_index) bs) :
    List.Pairwise (fun a b => a.line_index < b.line_index) bs :=
  h.imp (fun hab => by omega)

/-- The paragraph-gap scan emits boundaries at or past the current line, in
strictly ascending order. -/
theorem paraGo_ascending : ∀ (ls : List (List Char)) (i run : ℕ),
    (∀ b ∈ paraGo ls i run, i ≤ b.line_index)
      ∧ List.Pairwise (fun a b => a.line_index < b.line_index) (paraGo ls i run)
  | [], i, run => ⟨by simp [paraGo], by simp [paraGo]⟩
  | l :: rest, i, run => by
    by_cases h : pyStrip l = []
    · rw [paraGo, if_pos h]
      obtain ⟨ih1, ih2⟩ := paraGo_ascending rest (i + 1) (run + 1)
      exact ⟨fun b hb => le_trans (Nat.le_succ i) (ih1 b hb), ih2⟩
    · rw [paraGo, if_neg h]
      obtain ⟨ih1, ih2⟩ := paraGo_ascending rest (i + 1) 0
      by_cases hr : 5 ≤ run
      · rw [if_pos hr]
        constructor
        · intro b hb
          rcases List.mem_cons.mp (by simpa using hb) with hb' | hb'
          · rw [hb']
          · exact le_trans (Nat.le_succ i) (ih1 b hb')
        · rw [List.singleton_append]
          refine List.Pairwise.cons ?_ ih2
          intro c hc
          have := ih1 c hc
          show i < c.line_index
          omega
      · rw [if_neg hr, List.nil_append]
        exact ⟨fun b hb => le_trans (Nat.le_succ i) (ih1 b hb), ih2⟩

/-- The paragraph-gap strategy output is strictly ascending. -/
theorem detectParagraphBreaks_ascending (text : List Char) :
    List.Pairwise (fun a b => a.line_index < b.line_index)
      (detectParagraphBreaks text) :=
  (paraGo_ascending (splitNL text) 0 0).2

/-- The auto cascade output is strictly ascending. -/
theorem detectAuto_ascending (text : List Char) (minConf : ℚ) :
    List.Pairwise (fun a b => a.line_index < b.line_index) (detectAuto text minConf) := by
  simp only [detectAuto]
  split
  · exact detectMarkdown_ascending text
  · split
    · exact pairwise_gap_lt _ (filterOverlapping_gap _)
    · split
      · exact pairwise_gap_lt _ (filterOverlapping_gap _)
      · exact detectParagraphBreaks_ascending text

/-- Claim C9 (implicit): for every text, strategy name and minimum confidence,
any boundary list detect returns is strictly ascending in line_index —
markdown and paragraph-gap emit candidates in scan order, structured and
heuristic are sorted and separated by the overlap filter, auto returns one of
those, and none returns the empty list. -/
theorem c9_detect_ascending (text : List Char) (strategy : String) (minConf : ℚ)
    (bs : List ChapterBoundary) (h : detect text strategy minConf = some bs) :
    List.Pairwise (fun a b => a.line_index < b.line_index) bs := by
  unfold detect at h
  split_ifs at h <;> rw [Option.some.injEq] at h <;> rw [← h]
  · simp
  · exact detectAuto_ascending text minConf
  · exact detectMarkdown_ascending text
  · exact pairwise_gap_lt _ (filterOverlapping_gap _)
  · exact pairwise_gap_lt _ (filterOverlapping_gap _)
  · exact detectParagraphBreaks_ascending text

/-- Witness for C9 at a concrete markdown document with two headers. -/
theorem c9_witness :
    List.Pairwise (fun a b => a.line_index < b.line_index)
      [(⟨0, some ("A".data), 1, "markdown"⟩ : ChapterBoundary),
       ⟨1, some ("B".data), 1, "markdown"⟩] :=
  c9_detect_ascending mdTwoAdjacent ("markdown") d05
    [⟨0, some ("A".data), 1, "markdown"⟩, ⟨1, some ("B".data), 1, "markdown"⟩]
    (by decide)

/-! ## The review command does not reload the stored detection config (C2) -/

/-- Claim C2 failing input: a project processed with the stored strategy
"none" has a single whole-document chapter, but review reloads the source
with the load_txt defaults (strategy "auto", min_confidence 0.5) because
cli.review passes no detection arguments, so it re-chunks a different chapter
text than the one the index was built from. -/
theorem c2_review_ignores_stored_config :
    loadChapters reviewSourceDoc ("none") reviewLoadMinConfidence = some [reviewSourceDoc]
      ∧ loadChapters reviewSourceDoc reviewLoadStrategy reviewLoadMinConfidence
        = some [("# One\nalpha".data), ("# Two\nbeta".data)]
      ∧ decide (("# One\nalpha".data) = reviewSourceDoc) = false :=
  ⟨by decide, by decide, by decide⟩

/-! ## Rebuild: silent skipping, name-sorted chapter groups, no-op outcomes (C3) -/

/-- Claim C3 (amended): rebuild drops the first skip_first_chunks id-sorted
entries and silently skips entries whose file is not on disk; each emitted
chapter group lists the surviving files sorted by file name (not in index
order); and whenever no entry survives — in particular when skip_first_chunks
reaches the index length or every referenced file is missing — the outcome is
a nothing-to-rebuild report, never an error. -/
theorem c3_rebuild_behaviour (idx : List IndexEntry) (skip : ℕ) (disk : List (List Char)) :
    (∀ gs, rebuildFromIndex idx skip disk = RebuildOutcome.built gs →
      gs = (chapterKeysOf (rebuildSurvivors idx skip disk)).map
        (fun k => (k, chapterFilesOf (rebuildSurvivors idx skip disk) k)))
    ∧ (rebuildSurvivors idx skip disk = [] ↔
        isNothingOutcome (rebuildFromIndex idx skip disk) = true)
    ∧ (idx.length ≤ skip → isNothingOutcome (rebuildFromIndex idx skip disk) = true)
    ∧ ((∀ m ∈ idx, ¬ m.file ∈ disk) →
        isNothingOutcome (rebuildFromIndex idx skip disk) = true) := by
  by_cases hidx : idx = []
  · subst hidx
    have hS : rebuildSurvivors [] skip disk = [] := by
      simp [rebuildSurvivors, sortById, List.insertionSort]
    have hout : rebuildFromIndex [] skip disk = RebuildOutcome.emptyIndex := rfl
    refine ⟨?_, ?_, ?_, ?_⟩
    · intro gs hgs
      rw [hout] at hgs
      exact absurd hgs (by simp)
    · rw [hS, hout]
      simp [isNothingOutcome]
    · intro _
      rw [hout]
      rfl
    · intro _
      rw [hout]
      rfl
  · have hout : rebuildFromIndex idx skip disk =
        if (chapterKeysOf (rebuildSurvivors idx skip disk)).map
            (fun k => (k, chapterFilesOf (rebuildSurvivors idx skip disk) k)) = []
        then RebuildOutcome.noChapters
        else RebuildOutcome.built ((chapterKeysOf (rebuildSurvivors idx skip disk)).map
            (fun k => (k, chapterFilesOf (rebuildSurvivors idx skip disk) k))) := by
      simp only [rebuildFromIndex]
      rw [if_neg hidx]
    have hgiff : (chapterKeysOf (rebuildSurvivors idx skip disk)).map
        (fun k => (k, chapterFilesOf (rebuildSurvivors idx skip disk) k)) = []
        ↔ rebuildSurvivors idx skip disk = [] := by
      rw [List.map_eq_nil_iff]
      unfold chapterKeysOf
      constructor
      · intro hk
        have hperm := List.perm_insertionSort (· ≤ ·)
          ((rebuildSurvivors idx skip disk).map (·.chapter_index)).dedup
        rw [hk] at hperm
        have hd := (hperm.symm).eq_nil
        rw [List.dedup_eq_nil, List.map_eq_nil_iff] at hd
        exact hd
      · intro hS
        rw [hS]
        rfl
    have hSnil : idx.length ≤ skip → rebuildSurvivors idx skip disk = [] := by
      intro hlen
      unfold rebuildSurvivors
      rw [List.drop_eq_nil_of_le, List.filter_nil]
      unfold sortById
      rw [(List.perm_insertionSort (fun a b => a.id ≤ b.id) idx).length_eq]
      exact hlen
    have hSmiss : (∀ m ∈ idx, ¬ m.file ∈ disk) → rebuildSurvivors idx skip disk = [] := by
      intro hmiss
      unfold rebuildSurvivors
      rw [List.filter_eq_nil_iff]
      intro m hm
      have hmem : m ∈ idx :=
        (List.perm_insertionSort (fun a b => a.id ≤ b.id) idx).mem_iff.mp
          (List.mem_of_mem_drop hm)
      simpa using hmiss m hmem
    refine ⟨?_, ?_, ?_, ?_⟩
    · intro gs hgs
      rw [hout] at hgs
      by_cases hg : (chapterKeysOf (rebuildSurvivors idx skip disk)).map
          (fun k => (k, chapterFilesOf (rebuildSurvivors idx skip disk) k)) = []
      · rw [if_pos hg] at hgs
        exact absurd hgs (by simp)
      · rw [if_neg hg] at hgs
        injection hgs with hgs'
        exact hgs'.symm
    · rw [hout]
      by_cases hg : (chapterKeysOf (rebuildSurvivors idx skip disk)).map
          (fun k => (k, chapterFilesOf (rebuildSurvivors idx skip disk) k)) = []
      · rw [if_pos hg]
        exact ⟨fun _ => rfl, fun _ => hgiff.mp hg⟩
      · rw [if_neg hg]
        constructor
        · intro hS
          exact absurd (hgiff.mpr hS) hg
        · intro habs
          exact absurd habs (by simp [isNothingOutcome])
    · intro hlen
      rw [hout, if_pos (hgiff.mpr (hSnil hlen))]
      rfl
    · intro hmiss
      rw [hout, if_pos (hgiff.mpr (hSmiss hmiss))]
      rfl

/-- Witness for C3: skipping past the whole index reports nothing to rebuild. -/
theorem c3_witness :
    isNothingOutcome (rebuildFromIndex [⟨0, 0, ("a.wav".data)⟩] 1 [("a.wav".data)]) = true :=
  (c3_rebuild_behaviour [⟨0, 0, ("a.wav".data)⟩] 1 [("a.wav".data)]).2.2.1 (by decide)

/-- Claim C3 counterexample: both files of chapter 0 exist, the index (in id
order) records them as b.wav before a.wav, yet the chapter group is emitted
name-sorted as a.wav before b.wav — the relative order of the surviving
entries is not preserved. -/
theorem c3_counterexample :
    rebuildFromIndex [⟨0, 0, ("b.wav".data)⟩, ⟨1, 0, ("a.wav".data)⟩] 0
        [("a.wav".data), ("b.wav".data)]
      = RebuildOutcome.built [(0, [("a.wav".data), ("b.wav".data)])]
    ∧ (rebuildSurvivors [⟨0, 0, ("b.wav".data)⟩, ⟨1, 0, ("a.wav".data)⟩] 0
        [("a.wav".data), ("b.wav".data)]).map (·.file)
      = [("b.wav".data), ("a.wav".data)]
    ∧ decide (([("a.wav".data), ("b.wav".data)] : List (List Char))
        = [("b.wav".data), ("a.wav".data)]) = false :=
  ⟨by decide, by decide, by decide⟩

/-! ## The saved index records no audio file name (C1) -/

/-- Claim C1 failing evaluation: the Chunk dataclass defines neither a to_dict
method (so cli.process line 182 cannot build the record it saves) nor any file
attribute, while the rebuild code reads exactly the record key "file"; the
audio file name is never part of the chunk metadata the process command has
available to save. -/
theorem c1_no_file_field_saved :
    pyChunkHasAttr processRecordMethod = false
      ∧ decide (rebuildFileKey ∈ chunkFieldNames) = false
      ∧ decide (rebuildFileKey ∈ chunkMethodNames) = false :=
  ⟨by decide, by decide, by decide⟩

end BookForge
